import Mathlib

/-!
Verification of the `imitation` repository (behavioural cloning + hierarchical
logger) against its natural-language specification.

The definitions below are a shallow embedding of the two source files
`src/imitation/algorithms/bc.py` and `src/imitation/util/logger.py`:

* `runPass` / `run` / `iterate` embed the generator
  `EpochOrBatchIteratorWithProgress.__iter__`.  The Python data loader is
  re-iterated once per pass of the outer `while True` loop; we model it as a
  function `passes : Nat → List Batch` giving the batches produced by the
  k-th pull.  Yields, `on_epoch_end` callback invocations and the final
  outcome (normal return, `AssertionError` for an empty batch, or the
  "no data" `AssertionError`) are recorded explicitly.  The outer loop is
  driven by fuel (a bound on the number of passes); theorems supply enough
  fuel and prove the outcome is not `fuelOut`.
* `trainLoop` embeds the logging-relevant control flow of `BC.train`.
* `calculate_loss` embeds `BC._calculate_loss` over exact rationals, with
  `th.exp` kept abstract (an external collaborator).
* `HierLog` with `accumulate_means` / `dump` / `record` embeds
  `HierarchicalLogger`.
* `reconstruct_policy` embeds the module-level `reconstruct_policy`.
-/

namespace Imitation

/-- A batch, as in the spec's data model: a mapping with `obs` and `acts`
sequences.  Only `len(batch["obs"])` is inspected by the iterator. -/
structure Batch where
  obs : List Nat
  acts : List Nat
deriving DecidableEq, Repr

/-- The `stats` dict built at bc.py line 158. -/
structure Stats where
  epoch_num : Nat
  batch_num : Nat
  samples_so_far : Nat
deriving DecidableEq, Repr

/-- How one invocation of `__iter__` ends. -/
inductive Outcome where
  /-- Generator returned normally (`return` at bc.py lines 171 / 189). -/
  | done
  /-- `assert batch_size > 0` failed (bc.py line 156); counters at raise time. -/
  | emptyBatchError (batch_num epoch_num : Nat)
  /-- The "no data" `AssertionError` (bc.py lines 172-177). -/
  | noDataError (batch_num epoch_num : Nat)
  /-- Fuel for the outer `while True` loop ran out (model artifact). -/
  | fuelOut
deriving DecidableEq, Repr

/-- The message of the fatal error, when the outcome carries one.  The
`noDataError` message is the f-string at bc.py lines 174-176. -/
def Outcome.errorMessage : Outcome → Option String
  | .noDataError bn en =>
      some (s!"Data loader returned no data after {bn} batches, during epoch {en} -- did it reset correctly?")
  | .emptyBatchError _ _ => some "AssertionError: batch_size > 0"
  | _ => none

/-- Result of the inner `for batch in self.data_loader` loop (bc.py 152-171):
either the pass ran to completion, or the batch bound triggered the early
`return`, or an assertion fired.  `ys` collects the yielded pairs. -/
inductive InnerResult where
  | finished (batch_num samples : Nat) (ys : List (Batch × Stats))
  | earlyReturn (batch_num samples : Nat) (ys : List (Batch × Stats))
  | err (o : Outcome) (ys : List (Batch × Stats))
deriving DecidableEq, Repr

/-- The pairs yielded during the inner loop, whichever way it ended. -/
def InnerResult.yields : InnerResult → List (Batch × Stats)
  | .finished _ _ ys => ys
  | .earlyReturn _ _ ys => ys
  | .err _ ys => ys

/-- One pass of the inner `for` loop of
`EpochOrBatchIteratorWithProgress.__iter__` (bc.py lines 152-171), starting
from counters `bn` (`batch_num`) and `ss` (`samples_so_far`) in epoch
`epoch_num`. -/
def runPass (use_epochs : Bool) (n_batches : Nat) (epoch_num : Nat) :
    List Batch → Nat → Nat → InnerResult
  | [], bn, ss => .finished bn ss []
  | b :: rest, bn, ss =>
    -- batch_num += 1; batch_size = len(batch["obs"]); assert batch_size > 0
    if b.obs.length = 0 then .err (.emptyBatchError (bn + 1) epoch_num) []
    else
      -- samples_so_far += batch_size; yield batch, stats; on_batch_end();
      -- then in batch mode check `batch_num >= self.n_batches`
      if use_epochs = false ∧ n_batches ≤ bn + 1 then
        .earlyReturn (bn + 1) (ss + b.obs.length)
          [(b, ⟨epoch_num, bn + 1, ss + b.obs.length⟩)]
      else
        match runPass use_epochs n_batches epoch_num rest (bn + 1) (ss + b.obs.length) with
        | .finished bn2 ss2 ys =>
            .finished bn2 ss2 ((b, ⟨epoch_num, bn + 1, ss + b.obs.length⟩) :: ys)
        | .earlyReturn bn2 ss2 ys =>
            .earlyReturn bn2 ss2 ((b, ⟨epoch_num, bn + 1, ss + b.obs.length⟩) :: ys)
        | .err o ys => .err o ((b, ⟨epoch_num, bn + 1, ss + b.obs.length⟩) :: ys)

/-- Observable trace of one `__iter__` invocation: the yielded pairs, the
`on_epoch_end` invocations (with the keyword arguments of bc.py lines
180-182: `samples_so_far`, `epoch_num`, `batch_num`), and the outcome.
`on_batch_end` fires once per yielded pair, so its call count is
`yields.length` and is not tracked separately. -/
structure RunResult where
  yields : List (Batch × Stats)
  epochEnds : List (Nat × Nat × Nat)
  outcome : Outcome
deriving DecidableEq, Repr

/-- The outer `while True` loop of `__iter__` (bc.py lines 148-189), with
`fuel` bounding the number of passes pulled from the data loader. -/
def run (use_epochs : Bool) (n_epochs n_batches : Nat) (passes : Nat → List Batch) :
    Nat → Nat → Nat → Nat → RunResult
  | 0, _, _, _ => ⟨[], [], .fuelOut⟩
  | fuel + 1, en, bn, ss =>
    match runPass use_epochs n_batches en (passes en) bn ss with
    | .err o ys => ⟨ys, [], o⟩
    | .earlyReturn _ _ ys => ⟨ys, [], .done⟩
    | .finished bn1 ss1 ys =>
      -- `got_data_on_epoch` is true iff the pass produced at least one batch
      if passes en = [] then ⟨ys, [], .noDataError bn1 en⟩
      else
        -- epoch_num += 1; on_epoch_end(samples_so_far, epoch_num, batch_num);
        -- in epoch mode check `epoch_num >= self.n_epochs`
        if use_epochs = true ∧ n_epochs ≤ en + 1 then ⟨ys, [(ss1, en + 1, bn1)], .done⟩
        else
          let r := run use_epochs n_epochs n_batches passes fuel (en + 1) bn1 ss1
          ⟨ys ++ r.yields, (ss1, en + 1, bn1) :: r.epochEnds, r.outcome⟩

/-- One full invocation of `__iter__`: counters start at zero (bc.py lines
126-128). -/
def iterate (use_epochs : Bool) (n_epochs n_batches : Nat)
    (passes : Nat → List Batch) (fuel : Nat) : RunResult :=
  run use_epochs n_epochs n_batches passes fuel 0 0 0

/-- The pairs yielded while consuming one pass without interruption. -/
def passYields (epoch_num : Nat) : List Batch → Nat → Nat → List (Batch × Stats)
  | [], _, _ => []
  | b :: rest, bn, ss =>
    (b, ⟨epoch_num, bn + 1, ss + b.obs.length⟩) ::
      passYields epoch_num rest (bn + 1) (ss + b.obs.length)

/-- Running partial sums starting from `ss` (the trajectory of
`samples_so_far`). -/
def cumSums : Nat → List Nat → List Nat
  | _, [] => []
  | ss, n :: rest => (ss + n) :: cumSums (ss + n) rest

/-- Sizes (`len(batch["obs"])`) of the batches of a pass. -/
def sizes (l : List Batch) : List Nat := l.map (fun b => b.obs.length)

/-- Every batch of the pass is non-empty (the data contract checked by
`assert batch_size > 0`). -/
def allPositive (l : List Batch) : Prop := ∀ b ∈ l, b.obs.length ≠ 0

instance (l : List Batch) : Decidable (allPositive l) := by
  unfold allPositive; infer_instance

/-- Total number of batches produced by passes `en, en+1, ..., en+p-1`. -/
def sumLens (passes : Nat → List Batch) : Nat → Nat → Nat
  | _, 0 => 0
  | en, p + 1 => (passes en).length + sumLens passes (en + 1) p

/-! ### `BC.train` logging skeleton (bc.py lines 429-497)

Tensor arithmetic, the optimizer step and rollout generation are external
collaborators; what `BC.train` itself contributes is the control flow around
the logger: every batch a `record_mean` of the three stat groups, every
`log_interval`-th batch (0-indexed local counter) a `record` re-recording
plus a `dump` at the current `tensorboard_step`, and the two counters
`batch_num` / `tensorboard_step` each incremented once per batch. -/

/-- Logger-visible actions of one `BC.train` call, in program order. -/
inductive LogEvent where
  /-- `record_mean` of the iterator / loss / norm stat groups (every batch). -/
  | recordMeanAll (batch_idx : Nat)
  /-- `record` (overwrite) of the same three stat groups (bc.py line 477). -/
  | recordAll (batch_idx : Nat)
  /-- `self.logger.dump(self.tensorboard_step)` (bc.py line 495). -/
  | dump (step : Nat)
deriving DecidableEq, Repr

/-- The body of the `for batch, stats_dict_it in it:` loop (bc.py 431-497),
restricted to logging events; `n` batches remain, `bn` is the local
`batch_num` (starts at 0) and `ts` is `self.tensorboard_step`. -/
def trainLoop (log_interval : Nat) : Nat → Nat → Nat → List LogEvent × Nat
  | 0, _, ts => ([], ts)
  | n + 1, bn, ts =>
    if bn % log_interval = 0 then
      (LogEvent.recordMeanAll bn :: LogEvent.recordAll bn :: LogEvent.dump ts ::
          (trainLoop log_interval n (bn + 1) (ts + 1)).1,
        (trainLoop log_interval n (bn + 1) (ts + 1)).2)
    else
      (LogEvent.recordMeanAll bn :: (trainLoop log_interval n (bn + 1) (ts + 1)).1,
        (trainLoop log_interval n (bn + 1) (ts + 1)).2)

/-- One `BC.train` call in which the iterator yields `n_yields` batches:
`batch_num = 0` at bc.py line 429, `tensorboard_step` carried in.  Returns
the event trace and the final `tensorboard_step`. -/
def trainLogging (log_interval n_yields tensorboard_step : Nat) :
    List LogEvent × Nat :=
  trainLoop log_interval n_yields 0 tensorboard_step

/-- Steps at which `dump` was called, in order. -/
def dumpSteps (evs : List LogEvent) : List Nat :=
  evs.filterMap fun e => match e with | .dump s => some s | _ => none

/-- Batch indices at which the overwrite-discipline `record` ran, in order. -/
def recordAllBatches (evs : List LogEvent) : List Nat :=
  evs.filterMap fun e => match e with | .recordAll i => some i | _ => none

/-! ### `BC._calculate_loss` (bc.py lines 294-337)

Embedded over exact rationals.  The policy is the external collaborator
`evaluate_actions(obs, acts) → (values, log_prob, entropy)` (per-sample
vectors); `th.exp` is likewise external and kept abstract as `texp`. -/

/-- `tensor.mean()` over a per-sample vector. -/
def meanQ (l : List ℚ) : ℚ := l.sum / l.length

/-- The state `_calculate_loss` reads: the policy (its `evaluate_actions`
and `parameters()`), the two regularization weights, and the external
exponential. -/
structure BCModel (α : Type) where
  evaluate_actions : α → α → List ℚ × List ℚ × List ℚ
  parameters : List (List ℚ)
  ent_weight : ℚ
  l2_weight : ℚ
  texp : ℚ → ℚ

/-- `BC._calculate_loss(obs, acts)`: returns the loss and the `stats_dict`
literal of bc.py lines 327-335, keys in source order. -/
def calculate_loss {α : Type} (m : BCModel α) (obs acts : α) : ℚ × List (String × ℚ) :=
  let log_prob_vec := (m.evaluate_actions obs acts).2.1
  let entropy_vec := (m.evaluate_actions obs acts).2.2
  let prob_true_act := meanQ (log_prob_vec.map m.texp)
  let log_prob := meanQ log_prob_vec
  let ent_loss := meanQ entropy_vec
  let l2_norms := m.parameters.map (fun w => (w.map (fun x => x * x)).sum)
  let l2_loss_raw := l2_norms.sum / 2
  let ent_term := -m.ent_weight * ent_loss
  let neglogp := -log_prob
  let l2_term := m.l2_weight * l2_loss_raw
  let loss := neglogp + ent_term + l2_term
  (loss,
    [("neglogp", neglogp), ("loss", loss), ("prob_true_act", prob_true_act),
     ("ent_loss_raw", ent_loss), ("ent_loss_term", ent_term),
     ("l2_loss_raw", l2_loss_raw), ("l2_loss_term", l2_term)])

/-- The composite loss exactly as the spec words it: `neglogp −
ent_weight·entropy + l2_weight·l2_norm_raw` with `l2_norm_raw` the sum of
squared policy parameters divided by 2.  Used to compare `calculate_loss`
against the spec's formula. -/
def specLossFormula {α : Type} (m : BCModel α) (obs acts : α) : ℚ :=
  -(meanQ (m.evaluate_actions obs acts).2.1)
    - m.ent_weight * meanQ (m.evaluate_actions obs acts).2.2
    + m.l2_weight * ((m.parameters.flatten.map (fun x => x * x)).sum / 2)

/-! ### `HierarchicalLogger` (logger.py lines 43-187)

The in-memory state is the default (root) stable-baselines logger, the
lazily created cached per-scope sub-loggers, and the key of the active
`accumulate_means` scope (`current_logger` / `_subdir`, `none` outside a
context).  Output formats only receive data; the observable part of
`dump()` is the key→value mapping it writes plus the state mutation. -/

/-- `sb_logger.KVWriter`-visible levels used by `dump` (logger.py 13-17). -/
def INFO : Nat := 20

/-- `DISABLED = 50` (logger.py line 17). -/
def DISABLED : Nat := 50

/-- Python `dict` lookup over an insertion-ordered association list. -/
def listGet {α : Type} (k : String) : List (String × α) → Option α
  | [] => none
  | (k2, v) :: rest => if k2 = k then some v else listGet k rest

/-- Python `dict` assignment: update in place, else append. -/
def listSet {α : Type} (k : String) (v : α) : List (String × α) → List (String × α)
  | [] => [(k, v)]
  | (k2, v2) :: rest => if k2 = k then (k, v) :: rest else (k2, v2) :: listSet k v rest

/-- The accumulation tables and level of one `stable_baselines3` `Logger`. -/
structure SBLoggerState where
  name_to_value : List (String × ℚ)
  name_to_count : List (String × Nat)
  name_to_excluded : List (String × List String)
  level : Nat
deriving DecidableEq, Repr

/-- A freshly constructed `sb_logger.Logger` (level defaults to INFO). -/
def freshSBLogger : SBLoggerState := ⟨[], [], [], INFO⟩

/-- `Logger.record` of stable-baselines: overwrite latest value. -/
def SBLoggerState.record (lg : SBLoggerState) (key : String) (val : ℚ)
    (exclude : List String) : SBLoggerState :=
  { lg with
    name_to_value := listSet key val lg.name_to_value,
    name_to_excluded := listSet key exclude lg.name_to_excluded }

/-- `Logger.record_mean` of stable-baselines: running arithmetic mean. -/
def SBLoggerState.record_mean (lg : SBLoggerState) (key : String) (val : ℚ)
    (exclude : List String) : SBLoggerState :=
  let old := (listGet key lg.name_to_value).getD 0
  let cnt := (listGet key lg.name_to_count).getD 0
  { lg with
    name_to_value := listSet key (old * cnt / (cnt + 1) + val / (cnt + 1)) lg.name_to_value,
    name_to_count := listSet key (cnt + 1) lg.name_to_count,
    name_to_excluded := listSet key exclude lg.name_to_excluded }

/-- The clearing done at the end of `HierarchicalLogger.dump`
(logger.py lines 167-169). -/
def SBLoggerState.clearTables (lg : SBLoggerState) : SBLoggerState :=
  { lg with name_to_value := [], name_to_count := [], name_to_excluded := [] }

/-- The in-memory state of a `HierarchicalLogger`. -/
structure HierLog where
  default_logger : SBLoggerState
  current_key : Option String
  cached_loggers : List (String × SBLoggerState)
deriving DecidableEq, Repr

/-- Entering the `accumulate_means(subdir)` context manager (logger.py lines
107-124): raises `RuntimeError` when a context is already active, otherwise
reuses or lazily creates the cached sub-logger and activates the scope. -/
def HierLog.accumulate_means (hl : HierLog) (subdir : String) : Except String HierLog :=
  if hl.current_key.isSome then
    .error "Nested `accumulate_means` context"
  else
    match listGet subdir hl.cached_loggers with
    | some _ => .ok { hl with current_key := some subdir }
    | none =>
        .ok { hl with
              current_key := some subdir,
              cached_loggers := hl.cached_loggers ++ [(subdir, freshSBLogger)] }

/-- The `finally` block of `accumulate_means` (logger.py lines 125-127). -/
def HierLog.exitScope (hl : HierLog) : HierLog := { hl with current_key := none }

/-- `HierarchicalLogger.record` (logger.py lines 129-138). -/
def HierLog.record (hl : HierLog) (key : String) (val : ℚ)
    (exclude : List String) : HierLog :=
  match hl.current_key with
  | some k =>
    match listGet k hl.cached_loggers with
    | some lg =>
        { hl with
          cached_loggers :=
            listSet k (lg.record ("raw/" ++ k ++ "/" ++ key) val exclude)
              hl.cached_loggers,
          default_logger :=
            hl.default_logger.record_mean ("mean/" ++ k ++ "/" ++ key) val exclude }
    | none => hl
  | none => { hl with default_logger := hl.default_logger.record key val exclude }

/-- `HierarchicalLogger.record_mean` (logger.py lines 180-181): always the
default logger. -/
def HierLog.record_mean (hl : HierLog) (key : String) (val : ℚ)
    (exclude : List String) : HierLog :=
  { hl with default_logger := hl.default_logger.record_mean key val exclude }

/-- The `_logger` property (logger.py lines 140-145): the active scope's
sub-logger when a context is active, otherwise the default logger. -/
def HierLog.activeLogger (hl : HierLog) : SBLoggerState :=
  match hl.current_key with
  | some k => (listGet k hl.cached_loggers).getD hl.default_logger
  | none => hl.default_logger

/-- `HierarchicalLogger.set_level` (logger.py lines 177-178). -/
def HierLog.set_level (hl : HierLog) (lvl : Nat) : HierLog :=
  { hl with default_logger := { hl.default_logger with level := lvl } }

/-- `HierarchicalLogger.dump` (logger.py lines 147-169): if the active
logger's level is `DISABLED`, return immediately; otherwise write the
active logger's `name_to_value` to every output format and clear the three
accumulation tables of the active logger (and only those).  Returns the
written mapping and the new state. -/
def HierLog.dump (hl : HierLog) : List (String × ℚ) × HierLog :=
  if hl.activeLogger.level = DISABLED then ([], hl)
  else
    (hl.activeLogger.name_to_value,
      match hl.current_key with
      | some k =>
          { hl with
            cached_loggers := listSet k hl.activeLogger.clearTables hl.cached_loggers }
      | none => { hl with default_logger := hl.default_logger.clearTables })

/-! ### `reconstruct_policy` (bc.py lines 23-38) -/

/-- An abstract deserialized policy (the object saved by `save_policy`). -/
structure Policy where
  policyId : Nat
deriving DecidableEq, Repr

/-- What `th.load` may hand back: either an object satisfying
`isinstance(policy, policies.BasePolicy)` or anything else. -/
inductive LoadedObject where
  | basePolicy (p : Policy)
  | nonPolicy (typeName : String)
deriving DecidableEq, Repr

/-- `reconstruct_policy`: load, `assert isinstance(policy, BasePolicy)`,
return the loaded object unchanged. -/
def reconstruct_policy (loaded : LoadedObject) : Except String Policy :=
  match loaded with
  | .basePolicy p => .ok p
  | .nonPolicy t =>
      .error ("AssertionError: isinstance(policy, policies.BasePolicy) failed on " ++ t)

/-- A reachable `HierarchicalLogger` state: after `configure()`,
`set_level(DISABLED)` and one `record("k", 3)` — `record` has no level
check (logger.py lines 129-138), so the accumulation table is non-empty
while the level is `DISABLED`. -/
def c7DisabledState : HierLog :=
  ((⟨freshSBLogger, none, []⟩ : HierLog).set_level DISABLED).record "k" 3 []

/-! ## Helper lemmas about the iterator embedding -/

theorem passYields_length (en : Nat) :
    ∀ (l : List Batch) (bn ss : Nat), (passYields en l bn ss).length = l.length
  | [], _, _ => rfl
  | b :: rest, bn, ss => by
    simp [passYields, passYields_length en rest]

theorem passYields_map_epoch (en : Nat) :
    ∀ (l : List Batch) (bn ss : Nat),
      (passYields en l bn ss).map (fun p => p.2.epoch_num)
        = List.replicate l.length en
  | [], _, _ => rfl
  | b :: rest, bn, ss => by
    simp [passYields, List.replicate_succ, passYields_map_epoch en rest]

/-- In epoch mode a pass of non-empty batches always runs to completion. -/
theorem runPass_epochs (nB en : Nat) :
    ∀ (pass : List Batch) (bn ss : Nat), allPositive pass →
      runPass true nB en pass bn ss
        = .finished (bn + pass.length) (ss + (sizes pass).sum) (passYields en pass bn ss)
  | [], bn, ss, _ => by simp [runPass, sizes, passYields]
  | b :: rest, bn, ss, hpos => by
    have hb : b.obs.length ≠ 0 := hpos b (by simp)
    have ih := runPass_epochs nB en rest (bn + 1) (ss + b.obs.length)
      (fun x hx => hpos x (by simp [hx]))
    simp only [runPass, if_neg hb, ih]
    simp [sizes, passYields]
    omega

/-- In batch mode a pass of non-empty batches that stays strictly below the
bound runs to completion. -/
theorem runPass_batches_lt (nB en : Nat) :
    ∀ (pass : List Batch) (bn ss : Nat), allPositive pass →
      bn + pass.length < nB →
      runPass false nB en pass bn ss
        = .finished (bn + pass.length) (ss + (sizes pass).sum) (passYields en pass bn ss)
  | [], bn, ss, _, _ => by simp [runPass, sizes, passYields]
  | b :: rest, bn, ss, hpos, hlt => by
    have hb : b.obs.length ≠ 0 := hpos b (by simp)
    have hlt2 : bn + (rest.length + 1) < nB := by
      rw [List.length_cons] at hlt; exact hlt
    have hcond : ¬(false = false ∧ nB ≤ bn + 1) := by
      rintro ⟨-, hx⟩; omega
    have ih := runPass_batches_lt nB en rest (bn + 1) (ss + b.obs.length)
      (fun x hx => hpos x (by simp [hx]))
      (by omega)
    simp only [runPass, true_and, if_neg hb, ih]
    rw [if_neg (show ¬nB ≤ bn + 1 by omega)]
    simp [sizes, passYields]
    omega

/-- In batch mode a pass of non-empty batches that reaches the bound
triggers the early `return` exactly at batch `n_batches`. -/
theorem runPass_batches_ge (nB en : Nat) :
    ∀ (pass : List Batch) (bn ss : Nat), allPositive pass →
      bn < nB → nB ≤ bn + pass.length →
      runPass false nB en pass bn ss
        = .earlyReturn nB (ss + (sizes (pass.take (nB - bn))).sum)
            (passYields en (pass.take (nB - bn)) bn ss)
  | [], bn, ss, _, hlt, hge => by
    rw [List.length_nil] at hge
    omega
  | b :: rest, bn, ss, hpos, hlt, hge => by
    have hb : b.obs.length ≠ 0 := hpos b (by simp)
    have hge2 : nB ≤ bn + (rest.length + 1) := by
      rw [List.length_cons] at hge; exact hge
    by_cases hc : nB ≤ bn + 1
    · have hnb : nB = bn + 1 := by omega
      have htake : nB - bn = 1 := by omega
      simp only [runPass, true_and, if_neg hb, htake, List.take_succ_cons,
        List.take_zero]
      rw [if_pos hc]
      simp [sizes, passYields, hnb]
    · have ih := runPass_batches_ge nB en rest (bn + 1) (ss + b.obs.length)
        (fun x hx => hpos x (by simp [hx]))
        (by omega)
        (by omega)
      have htake : nB - bn = (nB - (bn + 1)) + 1 := by omega
      simp only [runPass, true_and, if_neg hb, ih, htake, List.take_succ_cons]
      rw [if_neg hc]
      simp [sizes, passYields]
      omega

/-- A pass that ran to completion advanced `batch_num` by the number of
yields and `samples_so_far` by the total of their sizes. -/
theorem runPass_finished_eq (u : Bool) (nB en : Nat) :
    ∀ (pass : List Batch) (bn ss bn2 ss2 : Nat) (ys : List (Batch × Stats)),
      runPass u nB en pass bn ss = .finished bn2 ss2 ys →
      bn2 = bn + ys.length ∧ ss2 = ss + (ys.map (fun p => p.1.obs.length)).sum
  | [], bn, ss, bn2, ss2, ys, h => by
    simp only [runPass, InnerResult.finished.injEq] at h
    obtain ⟨h1, h2, h3⟩ := h
    subst h1; subst h2; subst h3
    simp
  | b :: rest, bn, ss, bn2, ss2, ys, h => by
    by_cases hb : b.obs.length = 0
    · rw [runPass, if_pos hb] at h
      exact absurd h (by simp)
    · by_cases hcond : u = false ∧ nB ≤ bn + 1
      · simp only [runPass, if_neg hb, if_pos hcond] at h
        exact absurd h (by simp)
      · cases hr : runPass u nB en rest (bn + 1) (ss + b.obs.length) with
        | finished bn3 ss3 ys3 =>
          have ih := runPass_finished_eq u nB en rest (bn + 1) (ss + b.obs.length)
            bn3 ss3 ys3 hr
          simp only [runPass, if_neg hb, if_neg hcond, hr,
            InnerResult.finished.injEq] at h
          obtain ⟨h1, h2, h3⟩ := h
          subst h1; subst h2; subst h3
          simp
          omega
        | earlyReturn bn3 ss3 ys3 =>
          simp only [runPass, if_neg hb, if_neg hcond, hr] at h
          exact absurd h (by simp)
        | err o ys3 =>
          simp only [runPass, if_neg hb, if_neg hcond, hr] at h
          exact absurd h (by simp)

theorem cumSums_length : ∀ (l : List Nat) (ss : Nat), (cumSums ss l).length = l.length
  | [], _ => rfl
  | n :: rest, ss => by simp [cumSums, cumSums_length rest]

theorem cumSums_append :
    ∀ (l1 l2 : List Nat) (ss : Nat),
      cumSums ss (l1 ++ l2) = cumSums ss l1 ++ cumSums (ss + l1.sum) l2
  | [], l2, ss => by simp [cumSums]
  | n :: rest, l2, ss => by
    have h : ss + (n + rest.sum) = ss + n + rest.sum := by omega
    simp only [List.cons_append, cumSums, List.append_eq,
      cumSums_append rest l2 (ss + n), List.sum_cons, h]

/-- The stats of every yield of one pass: `epoch_num` is constant,
`batch_num` counts up from `bn + 1`, `samples_so_far` is the running sum
of the yielded batch sizes. -/
theorem runPass_shape (u : Bool) (nB en : Nat) :
    ∀ (pass : List Batch) (bn ss : Nat),
      ((runPass u nB en pass bn ss).yields.map (fun p => p.2.epoch_num)
          = List.replicate (runPass u nB en pass bn ss).yields.length en)
      ∧ ((runPass u nB en pass bn ss).yields.map (fun p => p.2.batch_num)
          = List.range' (bn + 1) (runPass u nB en pass bn ss).yields.length)
      ∧ ((runPass u nB en pass bn ss).yields.map (fun p => p.2.samples_so_far)
          = cumSums ss ((runPass u nB en pass bn ss).yields.map (fun p => p.1.obs.length)))
  | [], bn, ss => by simp [runPass, InnerResult.yields, cumSums]
  | b :: rest, bn, ss => by
    by_cases hb : b.obs.length = 0
    · simp only [runPass, if_pos hb, InnerResult.yields]
      simp [cumSums]
    · by_cases hcond : u = false ∧ nB ≤ bn + 1
      · simp only [runPass, if_neg hb, if_pos hcond, InnerResult.yields]
        simp [cumSums, List.range'_succ]
      · have ih := runPass_shape u nB en rest (bn + 1) (ss + b.obs.length)
        cases hr : runPass u nB en rest (bn + 1) (ss + b.obs.length) with
        | finished bn3 ss3 ys3 =>
          rw [hr] at ih
          simp only [InnerResult.yields] at ih
          simp only [runPass, if_neg hb, if_neg hcond, hr, InnerResult.yields,
            List.map_cons, List.length_cons, List.replicate_succ,
            List.range'_succ, cumSums, ih.1, ih.2.1, ih.2.2]
          simp
        | earlyReturn bn3 ss3 ys3 =>
          rw [hr] at ih
          simp only [InnerResult.yields] at ih
          simp only [runPass, if_neg hb, if_neg hcond, hr, InnerResult.yields,
            List.map_cons, List.length_cons, List.replicate_succ,
            List.range'_succ, cumSums, ih.1, ih.2.1, ih.2.2]
          simp
        | err o ys3 =>
          rw [hr] at ih
          simp only [InnerResult.yields] at ih
          simp only [runPass, if_neg hb, if_neg hcond, hr, InnerResult.yields,
            List.map_cons, List.length_cons, List.replicate_succ,
            List.range'_succ, cumSums, ih.1, ih.2.1, ih.2.2]
          simp

/-- The stats of every yield of a whole `__iter__` invocation, whatever the
mode, data source and outcome: `epoch_num` is non-decreasing and bounded
below by the starting epoch, `batch_num` counts up one per yield from
`bn + 1`, and `samples_so_far` is the running sum of the yielded batch
sizes on top of `ss`. -/
theorem run_shape (u : Bool) (nE nB : Nat) (passes : Nat → List Batch) :
    ∀ (fuel en bn ss : Nat),
      (((run u nE nB passes fuel en bn ss).yields.map
          (fun p => p.2.epoch_num)).Pairwise (· ≤ ·))
      ∧ (∀ e ∈ (run u nE nB passes fuel en bn ss).yields.map
          (fun p => p.2.epoch_num), en ≤ e)
      ∧ ((run u nE nB passes fuel en bn ss).yields.map (fun p => p.2.batch_num)
          = List.range' (bn + 1) (run u nE nB passes fuel en bn ss).yields.length)
      ∧ ((run u nE nB passes fuel en bn ss).yields.map (fun p => p.2.samples_so_far)
          = cumSums ss ((run u nE nB passes fuel en bn ss).yields.map
              (fun p => p.1.obs.length)))
  | 0, en, bn, ss => by simp [run, cumSums]
  | fuel + 1, en, bn, ss => by
    have hps := runPass_shape u nB en (passes en) bn ss
    cases hr : runPass u nB en (passes en) bn ss with
    | err o ys =>
      rw [hr] at hps
      simp only [InnerResult.yields] at hps
      simp only [run, hr]
      refine ⟨by simp [hps.1], ?_, by simp [hps.2.1], by simp [hps.2.2]⟩
      intro e he
      rw [hps.1] at he
      exact le_of_eq (List.eq_of_mem_replicate he).symm
    | earlyReturn bn1 ss1 ys =>
      rw [hr] at hps
      simp only [InnerResult.yields] at hps
      simp only [run, hr]
      refine ⟨by simp [hps.1], ?_, by simp [hps.2.1], by simp [hps.2.2]⟩
      intro e he
      rw [hps.1] at he
      exact le_of_eq (List.eq_of_mem_replicate he).symm
    | finished bn1 ss1 ys =>
      rw [hr] at hps
      simp only [InnerResult.yields] at hps
      have hfin := runPass_finished_eq u nB en (passes en) bn ss bn1 ss1 ys hr
      by_cases hemp : passes en = []
      · simp only [run, hr, if_pos hemp]
        refine ⟨by simp [hps.1], ?_, by simp [hps.2.1], by simp [hps.2.2]⟩
        intro e he
        rw [hps.1] at he
        exact le_of_eq (List.eq_of_mem_replicate he).symm
      · by_cases hterm : u = true ∧ nE ≤ en + 1
        · simp only [run, hr, if_neg hemp, if_pos hterm]
          refine ⟨by simp [hps.1], ?_, by simp [hps.2.1], by simp [hps.2.2]⟩
          intro e he
          rw [hps.1] at he
          exact le_of_eq (List.eq_of_mem_replicate he).symm
        · have ih := run_shape u nE nB passes fuel (en + 1) bn1 ss1
          simp only [run, hr, if_neg hemp, if_neg hterm]
          constructor
          · -- epoch numbers pairwise non-decreasing across the append
            rw [List.map_append, List.pairwise_append]
            refine ⟨by simp [hps.1], ih.1, ?_⟩
            intro a ha b hb
            rw [hps.1] at ha
            have ha2 := List.eq_of_mem_replicate ha
            have hb2 := ih.2.1 b hb
            omega
          constructor
          · intro e he
            rw [List.map_append, List.mem_append] at he
            rcases he with he | he
            · rw [hps.1] at he
              exact le_of_eq (List.eq_of_mem_replicate he).symm
            · exact le_trans (Nat.le_succ en) (ih.2.1 e he)
          constructor
          · -- batch numbers: two consecutive ranges concatenate
            rw [List.map_append, hps.2.1, ih.2.2.1, List.length_append]
            have h1 : bn1 + 1 = (bn + 1) + ys.length := by omega
            rw [h1, List.range'_append_1]
            congr 1
            omega
          · -- samples: running sums concatenate
            rw [List.map_append, List.map_append, hps.2.2, ih.2.2.2,
              cumSums_append, hfin.2]

/-- Batch-bounded mode with a well-behaved data source: the run returns
normally with exactly `n_batches - bn` further yields. -/
theorem run_batches_done (nE nB : Nat) (passes : Nat → List Batch)
    (hpos : ∀ k, allPositive (passes k)) (hne : ∀ k, passes k ≠ []) :
    ∀ (fuel en bn ss : Nat), bn < nB → nB - bn ≤ fuel →
      (run false nE nB passes fuel en bn ss).outcome = .done
      ∧ (run false nE nB passes fuel en bn ss).yields.length = nB - bn
  | 0, en, bn, ss, hlt, hfuel => absurd hfuel (by omega)
  | fuel + 1, en, bn, ss, hlt, hfuel => by
    by_cases hge : nB ≤ bn + (passes en).length
    · have hr := runPass_batches_ge nB en (passes en) bn ss (hpos en) hlt hge
      refine ⟨by simp [run, hr], ?_⟩
      simp only [run, hr]
      rw [passYields_length, List.length_take]
      omega
    · push_neg at hge
      have hr := runPass_batches_lt nB en (passes en) bn ss (hpos en) hge
      have hlen1 : 0 < (passes en).length := List.length_pos.mpr (hne en)
      have ih := run_batches_done nE nB passes hpos hne fuel (en + 1)
        (bn + (passes en).length) (ss + (sizes (passes en)).sum)
        (by omega) (by omega)
      refine ⟨?_, ?_⟩
      · simp only [run, hr, if_neg (hne en)]
        rw [if_neg (show ¬(false = true ∧ nE ≤ en + 1) by simp)]
        exact ih.1
      · simp only [run, hr, if_neg (hne en)]
        rw [if_neg (show ¬(false = true ∧ nE ≤ en + 1) by simp)]
        simp only [List.length_append, passYields_length, ih.2]
        omega

/-- A data source that yields data on every pass produces at least `p`
batches over `p` passes. -/
theorem sumLens_ge (passes : Nat → List Batch) (hne : ∀ k, passes k ≠ []) :
    ∀ (p en : Nat), p ≤ sumLens passes en p
  | 0, _ => Nat.le_refl 0
  | p + 1, en => by
    have h1 : 0 < (passes en).length := List.length_pos.mpr (hne en)
    have ih := sumLens_ge passes hne p (en + 1)
    simp only [sumLens]
    omega

/-- Batch-bounded mode when the bound coincides with the end of the `p`-th
pass: the run returns normally, `on_epoch_end` fires only `p - 1` times,
and the last yield still carries the epoch counter of the final pass. -/
theorem run_batch_boundary (nE nB : Nat) (passes : Nat → List Batch)
    (hpos : ∀ k, allPositive (passes k)) (hne : ∀ k, passes k ≠ []) :
    ∀ (p fuel en bn ss : Nat), 1 ≤ p → nB = bn + sumLens passes en p →
      p ≤ fuel →
      (run false nE nB passes fuel en bn ss).outcome = .done
      ∧ (run false nE nB passes fuel en bn ss).yields.length = nB - bn
      ∧ (run false nE nB passes fuel en bn ss).epochEnds.length = p - 1
      ∧ (((run false nE nB passes fuel en bn ss).yields.map
            (fun y => y.2.epoch_num)).getLast? = some (en + (p - 1)))
  | 0, fuel, en, bn, ss, hp, _, _ => absurd hp (by omega)
  | 1, fuel, en, bn, ss, _, hnb, hfuel => by
    obtain ⟨f, rfl⟩ : ∃ f, fuel = f + 1 := ⟨fuel - 1, by omega⟩
    have hlen1 : 0 < (passes en).length := List.length_pos.mpr (hne en)
    have hnb2 : nB = bn + (passes en).length := by
      have hsum : sumLens passes en 1 = (passes en).length + sumLens passes (en + 1) 0 := rfl
      rw [hsum] at hnb
      simp only [sumLens] at hnb
      omega
    have hr := runPass_batches_ge nB en (passes en) bn ss (hpos en)
      (by omega) (by omega)
    have htake : nB - bn = (passes en).length := by omega
    refine ⟨by simp [run, hr], ?_, by simp [run, hr], ?_⟩
    · simp only [run, hr]
      rw [passYields_length, List.length_take]
      omega
    · simp only [run, hr]
      rw [htake, List.take_length, passYields_map_epoch,
        List.getLast?_replicate]
      rw [if_neg (by omega)]
      norm_num
  | p + 2, fuel, en, bn, ss, _, hnb, hfuel => by
    obtain ⟨f, rfl⟩ : ∃ f, fuel = f + 1 := ⟨fuel - 1, by omega⟩
    have hlen1 : 0 < (passes en).length := List.length_pos.mpr (hne en)
    have hrest : p + 1 ≤ sumLens passes (en + 1) (p + 1) :=
      sumLens_ge passes hne (p + 1) (en + 1)
    have hnb2 : nB = bn + (passes en).length + sumLens passes (en + 1) (p + 1) := by
      have hsum : sumLens passes en (p + 2)
          = (passes en).length + sumLens passes (en + 1) (p + 1) := rfl
      rw [hsum] at hnb
      omega
    have hr := runPass_batches_lt nB en (passes en) bn ss (hpos en) (by omega)
    have ih := run_batch_boundary nE nB passes hpos hne (p + 1) f (en + 1)
      (bn + (passes en).length) (ss + (sizes (passes en)).sum)
      (by omega) (by omega) (by omega)
    refine ⟨?_, ?_, ?_, ?_⟩
    · simp only [run, hr, if_neg (hne en)]
      rw [if_neg (show ¬(false = true ∧ nE ≤ en + 1) by simp)]
      exact ih.1
    · simp only [run, hr, if_neg (hne en)]
      rw [if_neg (show ¬(false = true ∧ nE ≤ en + 1) by simp)]
      simp only [List.length_append, passYields_length, ih.2.1]
      omega
    · simp only [run, hr, if_neg (hne en)]
      rw [if_neg (show ¬(false = true ∧ nE ≤ en + 1) by simp)]
      simp only [List.length_cons, ih.2.2.1]
      omega
    · simp only [run, hr, if_neg (hne en)]
      rw [if_neg (show ¬(false = true ∧ nE ≤ en + 1) by simp)]
      rw [List.map_append, List.getLast?_append, ih.2.2.2]
      simp only [Option.or_some]
      congr 1
      omega

/-- Skipping `k` well-behaved passes in epoch mode preserves the outcome,
advancing the epoch and batch counters accordingly. -/
theorem run_epochs_skip (nE nB : Nat) (passes : Nat → List Batch) :
    ∀ (k fuel en bn ss : Nat),
      (∀ j, en ≤ j → j < en + k → allPositive (passes j) ∧ passes j ≠ []) →
      en + k < nE → k ≤ fuel →
      ∃ ss2, (run true nE nB passes fuel en bn ss).outcome
          = (run true nE nB passes (fuel - k) (en + k)
              (bn + sumLens passes en k) ss2).outcome
  | 0, fuel, en, bn, ss, _, _, _ => ⟨ss, by simp [sumLens]⟩
  | k + 1, fuel, en, bn, ss, hgood, hlt, hfuel => by
    obtain ⟨f, rfl⟩ : ∃ f, fuel = f + 1 := ⟨fuel - 1, by omega⟩
    have h0 := hgood en (Nat.le_refl en) (by omega)
    have hr := runPass_epochs nB en (passes en) bn ss h0.1
    obtain ⟨ss2, ih⟩ := run_epochs_skip nE nB passes k f (en + 1)
      (bn + (passes en).length) (ss + (sizes (passes en)).sum)
      (fun j hj1 hj2 => hgood j (by omega) (by omega))
      (by omega) (by omega)
    refine ⟨ss2, ?_⟩
    have e1 : f + 1 - (k + 1) = f - k := by omega
    have e2 : en + (k + 1) = (en + 1) + k := by omega
    have e3 : bn + sumLens passes en (k + 1)
        = (bn + (passes en).length) + sumLens passes (en + 1) k := by
      have hsum : sumLens passes en (k + 1)
          = (passes en).length + sumLens passes (en + 1) k := rfl
      rw [hsum]
      omega
    rw [e1, e2, e3]
    simp only [run, hr, if_neg h0.2]
    rw [if_neg (show ¬(True ∧ nE ≤ en + 1) by simp; omega)]
    exact ih

/-- A pass that yields no data at all triggers the "no data" assertion with
the current counters. -/
theorem run_noData_step (nE nB : Nat) (passes : Nat → List Batch)
    (fuel en bn ss : Nat) (hfuel : 1 ≤ fuel) (hemp : passes en = []) :
    (run true nE nB passes fuel en bn ss).outcome = .noDataError bn en := by
  obtain ⟨f, rfl⟩ : ∃ f, fuel = f + 1 := ⟨fuel - 1, by omega⟩
  simp only [run, hemp]
  simp [runPass]

/-- A pass whose first batch is empty fails the `batch_size > 0` assertion
(after `batch_num` was already incremented). -/
theorem run_emptyBatch_step (nE nB : Nat) (passes : Nat → List Batch)
    (fuel en bn ss : Nat) (b : Batch) (rest : List Batch) (hfuel : 1 ≤ fuel)
    (hcons : passes en = b :: rest) (hzero : b.obs.length = 0) :
    (run true nE nB passes fuel en bn ss).outcome = .emptyBatchError (bn + 1) en := by
  obtain ⟨f, rfl⟩ : ∃ f, fuel = f + 1 := ⟨fuel - 1, by omega⟩
  have hr : runPass true nB en (passes en) bn ss
      = .err (.emptyBatchError (bn + 1) en) [] := by
    rw [hcons]
    simp only [runPass, if_pos hzero]
  simp [run, hr]

theorem passYields_map_batch (en : Nat) :
    ∀ (l : List Batch) (bn ss : Nat),
      (passYields en l bn ss).map (fun p => p.2.batch_num)
        = List.range' (bn + 1) l.length
  | [], _, _ => rfl
  | b :: rest, bn, ss => by
    simp [passYields, List.range'_succ, passYields_map_batch en rest]

theorem cumSums_getElem :
    ∀ (l : List Nat) (ss i : Nat) (h : i < (cumSums ss l).length),
      (cumSums ss l)[i] = ss + (l.take (i + 1)).sum
  | [], ss, i, h => by simp [cumSums] at h
  | n :: rest, ss, 0, h => by simp [cumSums]
  | n :: rest, ss, i + 1, h => by
    have h2 : i < (cumSums (ss + n) rest).length := by
      simp only [cumSums, List.length_cons] at h
      omega
    have ih := cumSums_getElem rest (ss + n) i h2
    simp only [cumSums, List.getElem_cons_succ, ih, List.take_succ_cons,
      List.sum_cons]
    omega

theorem sum_take_le_sum (l : List Nat) (m : Nat) : (l.take m).sum ≤ l.sum := by
  conv_rhs => rw [← List.take_append_drop m l]
  rw [List.sum_append]
  omega

theorem sum_take_mono (l : List Nat) (m n : Nat) (h : m ≤ n) :
    (l.take m).sum ≤ (l.take n).sum := by
  have h1 : l.take m = (l.take n).take m := by
    rw [List.take_take, Nat.min_eq_left h]
  rw [h1]
  exact sum_take_le_sum (l.take n) m

/-- Trace of the `BC.train` loop body: the final `tensorboard_step` is the
initial one plus the number of batches, dumps happen exactly at the batch
indices divisible by `log_interval` and carry the step counter current at
that batch, and the overwrite `record` happens at exactly those batches. -/
theorem trainLoop_spec (k : Nat) :
    ∀ (n bn ts : Nat),
      (trainLoop k n bn ts).2 = ts + n
      ∧ dumpSteps (trainLoop k n bn ts).1
          = ((List.range' bn n).filter (fun i => decide (i % k = 0))).map
              (fun i => (i - bn) + ts)
      ∧ recordAllBatches (trainLoop k n bn ts).1
          = (List.range' bn n).filter (fun i => decide (i % k = 0))
  | 0, bn, ts => by simp [trainLoop, dumpSteps, recordAllBatches]
  | n + 1, bn, ts => by
    have ih := trainLoop_spec k n (bn + 1) (ts + 1)
    have hmem : ∀ a ∈ (List.range' (bn + 1) n).filter
        (fun i => decide (i % k = 0)), bn + 1 ≤ a := by
      intro a ha
      exact (List.mem_range'_1.mp (List.mem_filter.mp ha).1).1
    have hcong : ((List.range' (bn + 1) n).filter
          (fun i => decide (i % k = 0))).map (fun i => (i - (bn + 1)) + (ts + 1))
        = ((List.range' (bn + 1) n).filter
          (fun i => decide (i % k = 0))).map (fun i => (i - bn) + ts) := by
      refine List.map_congr_left ?_
      intro a ha
      have := hmem a ha
      omega
    by_cases hb : bn % k = 0
    · have hfc : List.filter (fun i => decide (i % k = 0)) (bn :: List.range' (bn + 1) n)
          = bn :: List.filter (fun i => decide (i % k = 0)) (List.range' (bn + 1) n) := by
        simp [List.filter_cons, hb]
      refine ⟨?_, ?_, ?_⟩
      · simp only [trainLoop, if_pos hb]
        rw [ih.1]
        omega
      · simp only [trainLoop, if_pos hb, dumpSteps, List.filterMap_cons,
          List.range'_succ]
        simp only [dumpSteps] at ih
        rw [ih.2.1, hcong, hfc]
        simp
      · simp only [trainLoop, if_pos hb, recordAllBatches, List.filterMap_cons,
          List.range'_succ]
        simp only [recordAllBatches] at ih
        rw [ih.2.2, hfc]
    · have hfc : List.filter (fun i => decide (i % k = 0)) (bn :: List.range' (bn + 1) n)
          = List.filter (fun i => decide (i % k = 0)) (List.range' (bn + 1) n) := by
        simp [List.filter_cons, hb]
      refine ⟨?_, ?_, ?_⟩
      · simp only [trainLoop, if_neg hb]
        rw [ih.1]
        omega
      · simp only [trainLoop, if_neg hb, dumpSteps, List.filterMap_cons,
          List.range'_succ]
        simp only [dumpSteps] at ih
        rw [ih.2.1, hcong, hfc]
      · simp only [trainLoop, if_neg hb, recordAllBatches, List.filterMap_cons,
          List.range'_succ]
        simp only [recordAllBatches] at ih
        rw [ih.2.2, hfc]

theorem listGet_listSet_self {α : Type} (k : String) (v : α) :
    ∀ (l : List (String × α)), listGet k (listSet k v l) = some v
  | [] => by simp [listGet, listSet]
  | (k2, v2) :: rest => by
    by_cases h : k2 = k
    · simp [listGet, listSet, h]
    · simp [listGet, listSet, h, listGet_listSet_self k v rest]

theorem listGet_listSet_ne {α : Type} (k k2 : String) (v : α) (hne : k2 ≠ k) :
    ∀ (l : List (String × α)), listGet k2 (listSet k v l) = listGet k2 l
  | [] => by
    simp only [listSet, listGet]
    rw [if_neg (fun h => hne h.symm)]
  | (k3, v3) :: rest => by
    by_cases h : k3 = k
    · subst h
      simp only [listSet, if_pos rfl, listGet]
      rw [if_neg (fun h => hne h.symm), if_neg (fun h => hne h.symm)]
    · simp only [listSet, if_neg h, listGet]
      by_cases h2 : k3 = k2
      · simp [h2]
      · simp only [if_neg h2]
        exact listGet_listSet_ne k k2 v hne rest

/-- The three progress-stat facts of a yielded sequence, derived from the
structural description produced by `run_shape`. -/
theorem stats_of_shape (ys : List (Batch × Stats))
    (hpair : (ys.map (fun p => p.2.epoch_num)).Pairwise (· ≤ ·))
    (hbn : ys.map (fun p => p.2.batch_num) = List.range' 1 ys.length)
    (hsa : ys.map (fun p => p.2.samples_so_far)
        = cumSums 0 (ys.map (fun p => p.1.obs.length))) :
    (∀ i (hi : i < ys.length), (ys[i]).2.samples_so_far
        = ((ys.take (i + 1)).map (fun p => p.1.obs.length)).sum)
    ∧ (∀ i j (hi : i < ys.length) (hj : j < ys.length), i ≤ j →
        (ys[i]).2.epoch_num ≤ (ys[j]).2.epoch_num
        ∧ (ys[i]).2.batch_num ≤ (ys[j]).2.batch_num
        ∧ (ys[i]).2.samples_so_far ≤ (ys[j]).2.samples_so_far) := by
  have hsam : ∀ i (hi : i < ys.length), (ys[i]).2.samples_so_far
      = (((ys.map (fun p => p.1.obs.length)).take (i + 1))).sum := by
    intro i hi
    have him : i < (ys.map (fun p => p.2.samples_so_far)).length := by
      simpa using hi
    have h1 := List.getElem_of_eq hsa him
    have h2 := cumSums_getElem (ys.map (fun p => p.1.obs.length)) 0 i
      (by rw [cumSums_length]; simpa using hi)
    rw [h2] at h1
    simpa using h1
  have hbnum : ∀ i (hi : i < ys.length), (ys[i]).2.batch_num = 1 + i := by
    intro i hi
    have him : i < (ys.map (fun p => p.2.batch_num)).length := by simpa using hi
    have h1 := List.getElem_of_eq hbn him
    rw [List.getElem_range'_1] at h1
    simpa using h1
  constructor
  · intro i hi
    rw [hsam i hi, List.map_take]
  · intro i j hi hj hij
    refine ⟨?_, ?_, ?_⟩
    · rcases Nat.lt_or_ge i j with hlt | hge
      · have hp := List.pairwise_iff_get.mp hpair
          ⟨i, by simpa using hi⟩ ⟨j, by simpa using hj⟩ hlt
        simpa using hp
      · have heq : i = j := by omega
        subst heq
        exact Nat.le_refl _
    · rw [hbnum i hi, hbnum j hj]
      omega
    · rw [hsam i hi, hsam j hj]
      exact sum_take_mono (ys.map (fun p => p.1.obs.length)) (i + 1) (j + 1)
        (by omega)

/-! ## Claim theorems -/

/-- C1: For every restartable data source (each pass yields at least one
batch and every batch is non-empty, the contract the iterator itself
enforces) and every `n_batches > 0`, iterating
`EpochOrBatchIteratorWithProgress` with this `n_batches` (epoch mode off)
yields exactly `n_batches` pairs whose `stats.batch_num` values are
`1, 2, ..., n_batches` in order, and the iteration terminates normally
immediately after the `n_batches`-th yield, even mid-pass. -/
theorem c1_batch_bound_exact (passes : Nat → List Batch)
    (n_epochs n_batches fuel : Nat)
    (hpos : ∀ k, allPositive (passes k)) (hne : ∀ k, passes k ≠ [])
    (hn : 0 < n_batches) (hfuel : n_batches ≤ fuel) :
    (iterate false n_epochs n_batches passes fuel).outcome = Outcome.done
    ∧ (iterate false n_epochs n_batches passes fuel).yields.length = n_batches
    ∧ (iterate false n_epochs n_batches passes fuel).yields.map
        (fun p => p.2.batch_num) = List.range' 1 n_batches := by
  have h := run_batches_done n_epochs n_batches passes hpos hne fuel 0 0 0 hn
    (by omega)
  have hs := (run_shape false n_epochs n_batches passes fuel 0 0 0).2.2.1
  simp only [iterate]
  refine ⟨h.1, by simpa using h.2, ?_⟩
  rw [hs, h.2]
  norm_num

/-- Witness for C1 at a concrete one-batch-per-pass source with
`n_batches = 2`: the bound falls mid-pass (after the first batch of the
second pass). -/
theorem c1_batch_bound_exact_witness :
    (iterate false 0 2 (fun _ => [⟨[5], [1]⟩]) 2).outcome = Outcome.done
    ∧ (iterate false 0 2 (fun _ => [⟨[5], [1]⟩]) 2).yields.length = 2
    ∧ (iterate false 0 2 (fun _ => [⟨[5], [1]⟩]) 2).yields.map
        (fun p => p.2.batch_num) = List.range' 1 2 :=
  c1_batch_bound_exact (fun _ => [⟨[5], [1]⟩]) 0 2 2
    (fun _ => (by decide : allPositive [⟨[5], [1]⟩]))
    (fun _ => (by decide : [(⟨[5], [1]⟩ : Batch)] ≠ [])) (by decide) (by decide)

/-- C3: in every iteration of `EpochOrBatchIteratorWithProgress` (either
mode, any data source, any outcome), after each yielded pair
`samples_so_far` equals the sum of `len(b["obs"])` over the batches
yielded so far, and `epoch_num`, `batch_num`, `samples_so_far` are each
monotonically non-decreasing across the yielded sequence. -/
theorem c3_progress_stats (u : Bool) (n_epochs n_batches fuel : Nat)
    (passes : Nat → List Batch) :
    (∀ i (hi : i < (iterate u n_epochs n_batches passes fuel).yields.length),
        ((iterate u n_epochs n_batches passes fuel).yields[i]).2.samples_so_far
          = (((iterate u n_epochs n_batches passes fuel).yields.take (i + 1)).map
              (fun p => p.1.obs.length)).sum)
    ∧ (∀ i j (hi : i < (iterate u n_epochs n_batches passes fuel).yields.length)
          (hj : j < (iterate u n_epochs n_batches passes fuel).yields.length),
        i ≤ j →
        ((iterate u n_epochs n_batches passes fuel).yields[i]).2.epoch_num
            ≤ ((iterate u n_epochs n_batches passes fuel).yields[j]).2.epoch_num
        ∧ ((iterate u n_epochs n_batches passes fuel).yields[i]).2.batch_num
            ≤ ((iterate u n_epochs n_batches passes fuel).yields[j]).2.batch_num
        ∧ ((iterate u n_epochs n_batches passes fuel).yields[i]).2.samples_so_far
            ≤ ((iterate u n_epochs n_batches passes fuel).yields[j]).2.samples_so_far) := by
  have hs := run_shape u n_epochs n_batches passes fuel 0 0 0
  have h01 : (0 : Nat) + 1 = 1 := rfl
  exact stats_of_shape (iterate u n_epochs n_batches passes fuel).yields
    hs.1 (by rw [← h01]; exact hs.2.2.1) hs.2.2.2

/-- Witness for C3 at a two-batch source (sizes 2 then 1), indices 0 and 1. -/
theorem c3_progress_stats_witness :
    ((iterate false 0 3 (fun _ => [⟨[7, 8], [1]⟩, ⟨[9], [1]⟩]) 2).yields.get
        ⟨0, by decide⟩).2.epoch_num
      ≤ ((iterate false 0 3 (fun _ => [⟨[7, 8], [1]⟩, ⟨[9], [1]⟩]) 2).yields.get
        ⟨1, by decide⟩).2.epoch_num
    ∧ ((iterate false 0 3 (fun _ => [⟨[7, 8], [1]⟩, ⟨[9], [1]⟩]) 2).yields.get
        ⟨0, by decide⟩).2.batch_num
      ≤ ((iterate false 0 3 (fun _ => [⟨[7, 8], [1]⟩, ⟨[9], [1]⟩]) 2).yields.get
        ⟨1, by decide⟩).2.batch_num
    ∧ ((iterate false 0 3 (fun _ => [⟨[7, 8], [1]⟩, ⟨[9], [1]⟩]) 2).yields.get
        ⟨0, by decide⟩).2.samples_so_far
      ≤ ((iterate false 0 3 (fun _ => [⟨[7, 8], [1]⟩, ⟨[9], [1]⟩]) 2).yields.get
        ⟨1, by decide⟩).2.samples_so_far :=
  (c3_progress_stats false 0 3 2 (fun _ => [⟨[7, 8], [1]⟩, ⟨[9], [1]⟩])).2
    0 1 (by decide) (by decide) (by decide)

/-- C10: in batch-bounded mode, when `n_batches` coincides exactly with the
end of the `p`-th pass, the iterator returns before the epoch-boundary
code: `on_epoch_end` has fired only `p - 1` times (not for the final,
fully consumed pass) and the last yielded stats still carry
`epoch_num = p - 1` (the counter was never stepped to `p`). -/
theorem c10_batch_bound_at_epoch_boundary (passes : Nat → List Batch)
    (n_epochs p fuel : Nat)
    (hpos : ∀ k, allPositive (passes k)) (hne : ∀ k, passes k ≠ [])
    (hp : 1 ≤ p) (hfuel : p ≤ fuel) :
    (iterate false n_epochs (sumLens passes 0 p) passes fuel).outcome
        = Outcome.done
    ∧ (iterate false n_epochs (sumLens passes 0 p) passes fuel).yields.length
        = sumLens passes 0 p
    ∧ (iterate false n_epochs (sumLens passes 0 p) passes fuel).epochEnds.length
        = p - 1
    ∧ ((iterate false n_epochs (sumLens passes 0 p) passes fuel).yields.map
          (fun y => y.2.epoch_num)).getLast? = some (p - 1) := by
  have h := run_batch_boundary n_epochs (sumLens passes 0 p) passes hpos hne
    p fuel 0 0 0 hp (by omega) hfuel
  simp only [iterate]
  refine ⟨h.1, by simpa using h.2.1, h.2.2.1, by simpa using h.2.2.2⟩

/-- Witness for C10 with two passes of two batches each
(`n_batches = sumLens = 4`). -/
theorem c10_batch_bound_at_epoch_boundary_witness :
    (iterate false 0 (sumLens (fun _ => [⟨[1], [0]⟩, ⟨[2, 3], [0]⟩]) 0 2)
        (fun _ => [⟨[1], [0]⟩, ⟨[2, 3], [0]⟩]) 2).outcome = Outcome.done
    ∧ (iterate false 0 (sumLens (fun _ => [⟨[1], [0]⟩, ⟨[2, 3], [0]⟩]) 0 2)
        (fun _ => [⟨[1], [0]⟩, ⟨[2, 3], [0]⟩]) 2).yields.length
        = sumLens (fun _ => [⟨[1], [0]⟩, ⟨[2, 3], [0]⟩]) 0 2
    ∧ (iterate false 0 (sumLens (fun _ => [⟨[1], [0]⟩, ⟨[2, 3], [0]⟩]) 0 2)
        (fun _ => [⟨[1], [0]⟩, ⟨[2, 3], [0]⟩]) 2).epochEnds.length = 2 - 1
    ∧ ((iterate false 0 (sumLens (fun _ => [⟨[1], [0]⟩, ⟨[2, 3], [0]⟩]) 0 2)
        (fun _ => [⟨[1], [0]⟩, ⟨[2, 3], [0]⟩]) 2).yields.map
          (fun y => y.2.epoch_num)).getLast? = some (2 - 1) :=
  c10_batch_bound_at_epoch_boundary (fun _ => [⟨[1], [0]⟩, ⟨[2, 3], [0]⟩])
    0 2 2 (fun _ => (by decide : allPositive [⟨[1], [0]⟩, ⟨[2, 3], [0]⟩]))
    (fun _ => (by decide : [(⟨[1], [0]⟩ : Batch), ⟨[2, 3], [0]⟩] ≠ []))
    (by decide) (by decide)

/-- C2: for a data source producing exactly 3 non-empty batches per pass,
iterating with `n_epochs = 2` yields exactly 6 pairs, `epoch_num` is 0 for
the first three and 1 for the next three, the epoch counter recorded by
`on_epoch_end` steps to 1 after batch 3 and to 2 (triggering termination)
after batch 6, and `on_epoch_end` is invoked exactly twice. -/
theorem c2_two_epochs_three_batches (passes : Nat → List Batch)
    (n_batches fuel : Nat) (h3 : ∀ k, (passes k).length = 3)
    (hpos : ∀ k, allPositive (passes k)) (hf : 2 ≤ fuel) :
    (iterate true 2 n_batches passes fuel).yields.length = 6
    ∧ (iterate true 2 n_batches passes fuel).yields.map (fun p => p.2.epoch_num)
        = [0, 0, 0, 1, 1, 1]
    ∧ (iterate true 2 n_batches passes fuel).epochEnds.length = 2
    ∧ (iterate true 2 n_batches passes fuel).epochEnds.map
        (fun e => (e.2.1, e.2.2)) = [(1, 3), (2, 6)]
    ∧ (iterate true 2 n_batches passes fuel).outcome = Outcome.done := by
  obtain ⟨f, rfl⟩ : ∃ f, fuel = f + 2 := ⟨fuel - 2, by omega⟩
  obtain ⟨a1, a2, a3, hp0⟩ := List.length_eq_three.mp (h3 0)
  obtain ⟨b1, b2, b3, hp1⟩ := List.length_eq_three.mp (h3 1)
  have ha1 : a1.obs.length ≠ 0 := hpos 0 a1 (by rw [hp0]; simp)
  have ha2 : a2.obs.length ≠ 0 := hpos 0 a2 (by rw [hp0]; simp)
  have ha3 : a3.obs.length ≠ 0 := hpos 0 a3 (by rw [hp0]; simp)
  have hb1 : b1.obs.length ≠ 0 := hpos 1 b1 (by rw [hp1]; simp)
  have hb2 : b2.obs.length ≠ 0 := hpos 1 b2 (by rw [hp1]; simp)
  have hb3 : b3.obs.length ≠ 0 := hpos 1 b3 (by rw [hp1]; simp)
  refine ⟨?_, ?_, ?_, ?_, ?_⟩ <;>
    simp [iterate, run, runPass, hp0, hp1, ha1, ha2, ha3, hb1, hb2, hb3]

/-- Witness for C2 at a concrete source with three size-1 batches per pass. -/
theorem c2_two_epochs_three_batches_witness :
    (iterate true 2 0 (fun _ => [⟨[1], [0]⟩, ⟨[2], [0]⟩, ⟨[3], [0]⟩]) 2).yields.length = 6
    ∧ (iterate true 2 0 (fun _ => [⟨[1], [0]⟩, ⟨[2], [0]⟩, ⟨[3], [0]⟩]) 2).yields.map
        (fun p => p.2.epoch_num) = [0, 0, 0, 1, 1, 1]
    ∧ (iterate true 2 0 (fun _ => [⟨[1], [0]⟩, ⟨[2], [0]⟩, ⟨[3], [0]⟩]) 2).epochEnds.length = 2
    ∧ (iterate true 2 0 (fun _ => [⟨[1], [0]⟩, ⟨[2], [0]⟩, ⟨[3], [0]⟩]) 2).epochEnds.map
        (fun e => (e.2.1, e.2.2)) = [(1, 3), (2, 6)]
    ∧ (iterate true 2 0 (fun _ => [⟨[1], [0]⟩, ⟨[2], [0]⟩, ⟨[3], [0]⟩]) 2).outcome
        = Outcome.done :=
  c2_two_epochs_three_batches (fun _ => [⟨[1], [0]⟩, ⟨[2], [0]⟩, ⟨[3], [0]⟩]) 0 2
    (fun _ => (by decide : ([(⟨[1], [0]⟩ : Batch), ⟨[2], [0]⟩, ⟨[3], [0]⟩]).length = 3))
    (fun _ => (by decide : allPositive [⟨[1], [0]⟩, ⟨[2], [0]⟩, ⟨[3], [0]⟩]))
    (by decide)

/-- C4: if the iterator reaches a pass that produces zero batches, the run
aborts with the "no data after N batches" diagnostic carrying the batch
and epoch counters (the reset-contract message), while a pass whose first
batch is empty instead fails the `batch_size > 0` assertion — a distinct
outcome; in neither case does the iteration complete silently. -/
theorem c4_empty_pass_fatal (passes : Nat → List Batch)
    (n_epochs n_batches fuel k : Nat) (hk : k < n_epochs)
    (hgood : ∀ j, j < k → allPositive (passes j) ∧ passes j ≠ [])
    (hfuel : k + 1 ≤ fuel) :
    (passes k = [] →
      (iterate true n_epochs n_batches passes fuel).outcome
          = Outcome.noDataError (sumLens passes 0 k) k
      ∧ (iterate true n_epochs n_batches passes fuel).outcome.errorMessage
          = some s!"Data loader returned no data after {sumLens passes 0 k} batches, during epoch {k} -- did it reset correctly?")
    ∧ (∀ b rest, passes k = b :: rest → b.obs.length = 0 →
        (iterate true n_epochs n_batches passes fuel).outcome
            = Outcome.emptyBatchError (sumLens passes 0 k + 1) k
        ∧ ∀ bn en, (iterate true n_epochs n_batches passes fuel).outcome
            ≠ Outcome.noDataError bn en) := by
  obtain ⟨ss2, hskip⟩ := run_epochs_skip n_epochs n_batches passes k fuel 0 0 0
    (fun j hj1 hj2 => hgood j (by omega)) (by omega) (by omega)
  simp only [Nat.zero_add] at hskip
  constructor
  · intro hemp
    have hstep := run_noData_step n_epochs n_batches passes (fuel - k) k
      (sumLens passes 0 k) ss2 (by omega) hemp
    have hout : (iterate true n_epochs n_batches passes fuel).outcome
        = Outcome.noDataError (sumLens passes 0 k) k := by
      simp only [iterate]
      rw [hskip, hstep]
    refine ⟨hout, ?_⟩
    rw [hout]
    rfl
  · intro b rest hcons hzero
    have hstep := run_emptyBatch_step n_epochs n_batches passes (fuel - k) k
      (sumLens passes 0 k) ss2 b rest (by omega) hcons hzero
    have hout : (iterate true n_epochs n_batches passes fuel).outcome
        = Outcome.emptyBatchError (sumLens passes 0 k + 1) k := by
      simp only [iterate]
      rw [hskip, hstep]
    refine ⟨hout, ?_⟩
    intro bn en
    rw [hout]
    simp

/-- Witness for C4: a source whose pass 1 is empty (after a good pass 0),
and — for the second half — a source whose pass 0 starts with an empty
batch. -/
theorem c4_empty_pass_fatal_witness :
    ((iterate true 3 0 (fun j => if j = 0 then [⟨[1], [0]⟩] else []) 2).outcome
        = Outcome.noDataError
            (sumLens (fun j => if j = 0 then [⟨[1], [0]⟩] else []) 0 1) 1
      ∧ (iterate true 3 0 (fun j => if j = 0 then [⟨[1], [0]⟩] else []) 2).outcome.errorMessage
          = some s!"Data loader returned no data after {sumLens (fun j => if j = 0 then [⟨[1], [0]⟩] else []) 0 1} batches, during epoch {1} -- did it reset correctly?")
    ∧ ((iterate true 3 0 (fun _ => [⟨[], [0]⟩, ⟨[4], [0]⟩]) 1).outcome
        = Outcome.emptyBatchError
            (sumLens (fun _ => [⟨[], [0]⟩, ⟨[4], [0]⟩]) 0 0 + 1) 0
      ∧ ∀ bn en, (iterate true 3 0 (fun _ => [⟨[], [0]⟩, ⟨[4], [0]⟩]) 1).outcome
          ≠ Outcome.noDataError bn en) :=
  ⟨(c4_empty_pass_fatal (fun j => if j = 0 then [⟨[1], [0]⟩] else []) 3 0 2 1
      (by decide)
      (fun j hj => by
        interval_cases j
        exact ⟨(by decide : allPositive [⟨[1], [0]⟩]),
          (by decide : [(⟨[1], [0]⟩ : Batch)] ≠ [])⟩)
      (by decide)).1 rfl,
   (c4_empty_pass_fatal (fun _ => [⟨[], [0]⟩, ⟨[4], [0]⟩]) 3 0 1 0
      (by decide) (fun j hj => absurd hj (by omega)) (by decide)).2
     ⟨[], [0]⟩ [⟨[4], [0]⟩] rfl rfl⟩

/-- C5: in `BC.train`, the dump (and the overwrite re-recording of the three
stat groups) happens exactly on the batches whose 0-indexed local counter
satisfies `batch_num % log_interval == 0` — including the very first batch —
with the dump receiving the step counter current at that batch; and
`tensorboard_step` advances by exactly one per batch, regardless of
`log_interval`. -/
theorem c5_log_interval_cadence (log_interval n_yields ts0 : Nat)
    (hk : 0 < log_interval) :
    dumpSteps (trainLogging log_interval n_yields ts0).1
        = ((List.range n_yields).filter
            (fun i => decide (i % log_interval = 0))).map (fun i => ts0 + i)
    ∧ recordAllBatches (trainLogging log_interval n_yields ts0).1
        = (List.range n_yields).filter (fun i => decide (i % log_interval = 0))
    ∧ (trainLogging log_interval n_yields ts0).2 = ts0 + n_yields
    ∧ (0 < n_yields →
        (dumpSteps (trainLogging log_interval n_yields ts0).1).head? = some ts0) := by
  have h := trainLoop_spec log_interval n_yields 0 ts0
  have hr : List.range n_yields = List.range' 0 n_yields :=
    List.range_eq_range' n_yields
  have hmap : ((List.range' 0 n_yields).filter
        (fun i => decide (i % log_interval = 0))).map (fun i => (i - 0) + ts0)
      = ((List.range' 0 n_yields).filter
        (fun i => decide (i % log_interval = 0))).map (fun i => ts0 + i) := by
    refine List.map_congr_left ?_
    intro a ha
    omega
  have h1 : dumpSteps (trainLogging log_interval n_yields ts0).1
      = ((List.range n_yields).filter
          (fun i => decide (i % log_interval = 0))).map (fun i => ts0 + i) := by
    rw [trainLogging, h.2.1, hr, hmap]
  refine ⟨h1, ?_, ?_, ?_⟩
  · rw [trainLogging, h.2.2, hr]
  · rw [trainLogging, h.1]
  · intro hn
    obtain ⟨m, rfl⟩ : ∃ m, n_yields = m + 1 := ⟨n_yields - 1, by omega⟩
    rw [h1, hr, List.range'_succ]
    rw [show List.filter (fun i => decide (i % log_interval = 0))
          (0 :: List.range' 1 m)
        = 0 :: List.filter (fun i => decide (i % log_interval = 0))
          (List.range' 1 m) by simp [List.filter_cons]]
    simp

/-- Witness for C5 with `log_interval = 2`, 5 batches, initial step 10. -/
theorem c5_log_interval_cadence_witness :
    dumpSteps (trainLogging 2 5 10).1
        = ((List.range 5).filter (fun i => decide (i % 2 = 0))).map
            (fun i => 10 + i)
    ∧ recordAllBatches (trainLogging 2 5 10).1
        = (List.range 5).filter (fun i => decide (i % 2 = 0))
    ∧ (trainLogging 2 5 10).2 = 10 + 5
    ∧ (0 < 5 → (dumpSteps (trainLogging 2 5 10).1).head? = some 10) :=
  c5_log_interval_cadence 2 5 10 (by decide)

/-- C6: `BC._calculate_loss` returns the loss
`neglogp − ent_weight·entropy + l2_weight·l2_norm_raw` (entropy term
subtracted, L2 term added, `l2_norm_raw` the sum of squared policy
parameters halved), and its stats mapping holds exactly the seven keys
`neglogp, loss, prob_true_act, ent_loss_raw, ent_loss_term, l2_loss_raw,
l2_loss_term` with the correspondingly computed values. -/
theorem c6_loss_composition {α : Type} (m : BCModel α) (obs acts : α) :
    (calculate_loss m obs acts).1 = specLossFormula m obs acts
    ∧ (calculate_loss m obs acts).2.map Prod.fst
        = ["neglogp", "loss", "prob_true_act", "ent_loss_raw", "ent_loss_term",
           "l2_loss_raw", "l2_loss_term"]
    ∧ (calculate_loss m obs acts).2
        = [("neglogp", -(meanQ (m.evaluate_actions obs acts).2.1)),
           ("loss", specLossFormula m obs acts),
           ("prob_true_act", meanQ ((m.evaluate_actions obs acts).2.1.map m.texp)),
           ("ent_loss_raw", meanQ (m.evaluate_actions obs acts).2.2),
           ("ent_loss_term", -(m.ent_weight * meanQ (m.evaluate_actions obs acts).2.2)),
           ("l2_loss_raw", (m.parameters.flatten.map (fun x => x * x)).sum / 2),
           ("l2_loss_term",
             m.l2_weight * ((m.parameters.flatten.map (fun x => x * x)).sum / 2))] := by
  have hl2 : (m.parameters.map (fun w => (w.map (fun x => x * x)).sum)).sum
      = (m.parameters.flatten.map (fun x => x * x)).sum := by
    rw [List.map_flatten, List.sum_flatten, List.map_map]
    rfl
  refine ⟨?_, by simp [calculate_loss], ?_⟩
  · simp only [calculate_loss, specLossFormula, hl2]
    ring
  · simp only [calculate_loss, specLossFormula, hl2]
    refine List.ext_getElem (by simp) ?_
    intro i h1 h2
    have h7 : i < 7 := by simpa using h2
    interval_cases i <;> simp <;> ring

/-- When the active level is not `DISABLED`, `dump` writes exactly the
active logger's `name_to_value` table. -/
theorem dump_writes_ntv (hl : HierLog) (h : hl.activeLogger.level ≠ DISABLED) :
    hl.dump.1 = hl.activeLogger.name_to_value := by
  simp only [HierLog.dump, if_neg h]

/-- C7 counterexample: the claim says *every* `dump()` clears the active
scope's tables, but when the active logger's level is `DISABLED`, `dump`
returns early (logger.py lines 153-154) and clears nothing: the recorded
key is still pending after the dump. -/
theorem c7_dump_counterexample :
    c7DisabledState.dump.2 = c7DisabledState
    ∧ c7DisabledState.activeLogger.name_to_value ≠ [] := by
  constructor
  · rfl
  · decide

/-- C7 (amended): whenever the active logger's level is not `DISABLED`,
`dump()` clears the three accumulation tables of exactly the active scope
(the current accumulate-scope sub-logger if one is active, otherwise the
default logger): a second `dump()` then writes nothing, and the
default logger / every other cached scope logger are left unchanged. -/
theorem c7_dump_clears_active_scope (hl : HierLog)
    (hlevel : hl.activeLogger.level ≠ DISABLED)
    (hwf : ∀ k, hl.current_key = some k →
      (listGet k hl.cached_loggers).isSome = true) :
    ((hl.dump.2).activeLogger.name_to_value = []
      ∧ (hl.dump.2).activeLogger.name_to_count = []
      ∧ (hl.dump.2).activeLogger.name_to_excluded = [])
    ∧ (∀ k, hl.current_key = some k →
        (hl.dump.2).default_logger = hl.default_logger
        ∧ ∀ k2, k2 ≠ k →
            listGet k2 (hl.dump.2).cached_loggers = listGet k2 hl.cached_loggers)
    ∧ (hl.current_key = none → (hl.dump.2).cached_loggers = hl.cached_loggers)
    ∧ ((hl.dump.2).dump.1 = []) := by
  cases hc : hl.current_key with
  | none =>
    have hact : hl.activeLogger = hl.default_logger := by
      simp [HierLog.activeLogger, hc]
    have hdump : hl.dump.2 = { hl with default_logger := hl.default_logger.clearTables } := by
      simp only [HierLog.dump, if_neg hlevel, hc]
    have hact2 : (hl.dump.2).activeLogger = hl.default_logger.clearTables := by
      rw [hdump]
      simp [HierLog.activeLogger, hc]
    refine ⟨?_, ?_, ?_, ?_⟩
    · rw [hact2]
      exact ⟨rfl, rfl, rfl⟩
    · intro k hk
      exact absurd hk (by simp)
    · intro _
      rw [hdump]
    · have hlv : (hl.dump.2).activeLogger.level ≠ DISABLED := by
        rw [hact2]
        rw [hact] at hlevel
        exact hlevel
      rw [dump_writes_ntv _ hlv, hact2]
      rfl
  | some k =>
    obtain ⟨lg, hg⟩ := Option.isSome_iff_exists.mp (hwf k hc)
    have hact : hl.activeLogger = lg := by
      simp [HierLog.activeLogger, hc, hg]
    have hdump : hl.dump.2
        = { hl with cached_loggers :=
              listSet k hl.activeLogger.clearTables hl.cached_loggers } := by
      simp only [HierLog.dump, if_neg hlevel, hc]
    have hact2 : (hl.dump.2).activeLogger = lg.clearTables := by
      rw [hdump]
      simp [HierLog.activeLogger, hc, hact, hg, listGet_listSet_self]
    refine ⟨?_, ?_, ?_, ?_⟩
    · rw [hact2]
      exact ⟨rfl, rfl, rfl⟩
    · intro k0 hk0
      have hkk : k0 = k := by
        injection hk0 with h2
        exact h2.symm
      subst hkk
      refine ⟨by rw [hdump], ?_⟩
      intro k2 hk2
      rw [hdump]
      exact listGet_listSet_ne k0 k2 _ hk2 hl.cached_loggers
    · intro hnone
      exact absurd hnone (by simp)
    · have hlv : (hl.dump.2).activeLogger.level ≠ DISABLED := by
        rw [hact2]
        rw [hact] at hlevel
        exact hlevel
      rw [dump_writes_ntv _ hlv, hact2]
      rfl

/-- Witness for the amended C7 at a concrete root-scope state with
a pending key and level `INFO`. -/
theorem c7_dump_clears_active_scope_witness :
    ((((⟨⟨[("a", 2)], [("a", 1)], [], INFO⟩, none, []⟩ : HierLog)).dump.2).activeLogger.name_to_value = []
      ∧ (((⟨⟨[("a", 2)], [("a", 1)], [], INFO⟩, none, []⟩ : HierLog)).dump.2).activeLogger.name_to_count = []
      ∧ (((⟨⟨[("a", 2)], [("a", 1)], [], INFO⟩, none, []⟩ : HierLog)).dump.2).activeLogger.name_to_excluded = [])
    ∧ (∀ k, (⟨⟨[("a", 2)], [("a", 1)], [], INFO⟩, none, []⟩ : HierLog).current_key = some k →
        ((((⟨⟨[("a", 2)], [("a", 1)], [], INFO⟩, none, []⟩ : HierLog)).dump.2).default_logger
            = (⟨⟨[("a", 2)], [("a", 1)], [], INFO⟩, none, []⟩ : HierLog).default_logger
        ∧ ∀ k2, k2 ≠ k →
            listGet k2 (((⟨⟨[("a", 2)], [("a", 1)], [], INFO⟩, none, []⟩ : HierLog)).dump.2).cached_loggers
              = listGet k2 (⟨⟨[("a", 2)], [("a", 1)], [], INFO⟩, none, []⟩ : HierLog).cached_loggers))
    ∧ ((⟨⟨[("a", 2)], [("a", 1)], [], INFO⟩, none, []⟩ : HierLog).current_key = none →
        (((⟨⟨[("a", 2)], [("a", 1)], [], INFO⟩, none, []⟩ : HierLog)).dump.2).cached_loggers
          = (⟨⟨[("a", 2)], [("a", 1)], [], INFO⟩, none, []⟩ : HierLog).cached_loggers)
    ∧ ((((⟨⟨[("a", 2)], [("a", 1)], [], INFO⟩, none, []⟩ : HierLog)).dump.2).dump.1 = []) :=
  c7_dump_clears_active_scope ⟨⟨[("a", 2)], [("a", 1)], [], INFO⟩, none, []⟩
    (by decide) (fun k h => by simp at h)

/-- C8: entering `accumulate_means` while a context is already active
raises the nested-context `RuntimeError` (and no second scope is
activated, since the call fails); with no active context, entry succeeds
and activates the requested scope. -/
theorem c8_nested_accumulate_means (hl : HierLog) (subdir : String) :
    (hl.current_key.isSome = true →
      hl.accumulate_means subdir
        = .error "Nested `accumulate_means` context")
    ∧ (hl.current_key = none →
      ∃ hl2, hl.accumulate_means subdir = .ok hl2
        ∧ hl2.current_key = some subdir) := by
  constructor
  · intro h
    simp [HierLog.accumulate_means, h]
  · intro h
    simp only [HierLog.accumulate_means, h, Option.isSome_none, Bool.false_eq_true,
      if_false]
    cases hg : listGet subdir hl.cached_loggers with
    | some lg => exact ⟨_, rfl, rfl⟩
    | none => exact ⟨_, rfl, rfl⟩

/-- Witness for C8: nested entry errors, fresh entry succeeds. -/
theorem c8_nested_accumulate_means_witness :
    (⟨freshSBLogger, some "x", [("x", freshSBLogger)]⟩ : HierLog).accumulate_means "y"
        = .error "Nested `accumulate_means` context"
    ∧ ∃ hl2, (⟨freshSBLogger, none, []⟩ : HierLog).accumulate_means "y" = .ok hl2
        ∧ hl2.current_key = some "y" :=
  ⟨(c8_nested_accumulate_means ⟨freshSBLogger, some "x", [("x", freshSBLogger)]⟩ "y").1 rfl,
   (c8_nested_accumulate_means ⟨freshSBLogger, none, []⟩ "y").2 rfl⟩

/-- C9: `reconstruct_policy` validates the deserialized object against the
`BasePolicy` capability contract: a policy is returned unchanged, any
other object makes the isinstance check fail fatally. -/
theorem c9_reconstruct_policy_validates (loaded : LoadedObject) :
    (∀ p, loaded = .basePolicy p → reconstruct_policy loaded = .ok p)
    ∧ ((∀ p, loaded ≠ .basePolicy p) →
        ∃ e, reconstruct_policy loaded = .error e) := by
  constructor
  · intro p hp
    subst hp
    rfl
  · intro h
    cases loaded with
    | basePolicy p => exact absurd rfl (h p)
    | nonPolicy t => exact ⟨_, rfl⟩

/-- Witness for C9 on a saved policy and on a non-policy blob. -/
theorem c9_reconstruct_policy_validates_witness :
    reconstruct_policy (.basePolicy ⟨7⟩) = .ok ⟨7⟩
    ∧ ∃ e, reconstruct_policy (.nonPolicy "collections.OrderedDict") = .error e :=
  ⟨(c9_reconstruct_policy_validates (.basePolicy ⟨7⟩)).1 ⟨7⟩ rfl,
   (c9_reconstruct_policy_validates (.nonPolicy "collections.OrderedDict")).2
     (fun p h => LoadedObject.noConfusion h)⟩

end Imitation
